import Mathlib

/-!
Shallow embedding of the incremental attachment-sync engine of
scripts/outlook_cli.py: dedupe key derivation, ledger replay, pending
failure table, the per-message attachment processor, the bounded
download-recent run, the scan-window and cursor computations of the
incremental download-new run, stream state loading, and path
uniquification.  Datetimes are modelled as integers (a total order is all
the code uses), Python dicts holding pending failures as association
lists, the Python set of completed dedupe keys as a Finset of strings,
and the filesystem and Graph API as explicit function parameters.
-/

namespace OutlookSync

/-- Model of the Python expression str(x or dflt) for an optional string x:
None and the empty string both fall back to the default. -/
def pyStrOrDefault (value : Option String) (dflt : String) : String :=
  match value with
  | none => dflt
  | some s => if s = "" then dflt else s

/-- Model of the Python str() rendering of an optional integer: None prints
as the four letter word None, an integer prints in decimal. -/
def pyStrOfOptInt (value : Option Int) : String :=
  match value with
  | none => "None"
  | some n => toString n

/-- Model of the Python str.strip method: remove leading and trailing
whitespace characters. -/
def pyStrip (s : String) : String :=
  String.mk (((s.data.dropWhile Char.isWhitespace).reverse.dropWhile Char.isWhitespace).reverse)

/-- One attachment record as the sync engine reads it: the fields id, name,
size, contentType and isInline of the Graph attachment dict. -/
structure Attachment where
  id : Option String
  name : Option String
  size : Option Int
  contentType : Option String
  isInline : Bool
deriving DecidableEq, Repr

/-- One message record: the id, subject and receivedDateTime fields of the
Graph message dict, together with the attachment list the client returns
for it (list_attachments is deterministic for an unchanged mailbox). -/
structure Message where
  id : Option String
  subject : Option String
  receivedDateTime : Option String
  attachments : List Attachment
deriving DecidableEq, Repr

/-- The normalized attachment id: str(attachment.get(id) or "").strip() as
computed at the top of the per-attachment loop and in build_dedupe_key. -/
def attachmentIdOf (a : Attachment) : String :=
  pyStrip (pyStrOrDefault a.id "")

/-- The normalized message id: str(message.get(id) or "").strip() as
computed at the top of process_message_attachments. -/
def messageIdOf (m : Message) : String :=
  pyStrip (pyStrOrDefault m.id "")

/-- Embedding of build_dedupe_key (outlook_cli.py lines 1618 to 1625):
message_id colon attachment_id when the stripped attachment id is
non-empty, else message_id colon name colon size with name defaulting to
the word attachment and size rendered as Python str. -/
def build_dedupe_key (message_id : String) (a : Attachment) : String :=
  let attachment_id := attachmentIdOf a
  if attachment_id ≠ "" then
    message_id ++ ":" ++ attachment_id
  else
    message_id ++ ":" ++ pyStrOrDefault a.name "attachment" ++ ":" ++ pyStrOfOptInt a.size

/-- One physical line of the ledger file after the read loop strips it: a
blank line, a line that fails json.loads, or a parsed event carrying its
event kind and optional dedupe_key field.  Other fields of an event are
never read by load_completed_keys, so they are not modelled. -/
inductive LedgerLine
  | blank
  | malformed
  | event (kind : String) (dedupe_key : Option String)
deriving DecidableEq, Repr

/-- The key extraction str(event.get(dedupe_key) or "").strip() applied by
load_completed_keys to a parsed event. -/
def ledgerKeyOf (dedupe_key : Option String) : String :=
  pyStrip (dedupe_key.getD "")

/-- One iteration of the read loop of load_completed_keys (outlook_cli.py
lines 1558 to 1571). -/
def ledgerStep (completed : Finset String) (line : LedgerLine) : Finset String :=
  match line with
  | .blank => completed
  | .malformed => completed
  | .event kind dk =>
    if kind = "downloaded" then
      let key := ledgerKeyOf dk
      if key = "" then completed else insert key completed
    else completed

/-- Embedding of load_completed_keys (outlook_cli.py lines 1552 to 1573):
fold the tolerant read loop over the ledger lines starting from the empty
set. -/
def load_completed_keys (lines : List LedgerLine) : Finset String :=
  lines.foldl ledgerStep ∅

/-- One value of the pending_failures table of the stream state, as written
by _record_pending_failure. -/
structure PendingEntry where
  message_id : String
  attachment_id : String
  attempts : Int
  last_error : String
  last_attempt_utc : String
deriving DecidableEq, Repr

/-- The pending_failures dict, modelled as an association list from dedupe
key to entry (lookup, assignment and deletion are all the code uses, so
iteration order of the Python dict is not modelled). -/
abbrev PendingMap := List (String × PendingEntry)

/-- Dict lookup pending.get(key). -/
def pmLookup (pending : PendingMap) (key : String) : Option PendingEntry :=
  match pending.find? (fun kv => kv.1 == key) with
  | some kv => some kv.2
  | none => none

/-- Dict deletion pending.pop(key, None). -/
def pmRemove (pending : PendingMap) (key : String) : PendingMap :=
  pending.filter (fun kv => !(kv.1 == key))

/-- Dict assignment pending[key] = entry, up to iteration order. -/
def pmSet (pending : PendingMap) (key : String) (entry : PendingEntry) : PendingMap :=
  (key, entry) :: pmRemove pending key

/-- Embedding of _record_pending_failure (outlook_cli.py lines 1587 to
1609): increment the attempt count of any previous entry under the same
key and store the fresh error and timestamp. -/
def record_pending_failure (pending : PendingMap) (dedupe_key message_id attachment_id error attempted_at : String) : PendingMap :=
  let attempts : Int :=
    match pmLookup pending dedupe_key with
    | some prev => prev.attempts + 1
    | none => 1
  pmSet pending dedupe_key ⟨message_id, attachment_id, attempts, error, attempted_at⟩

/-- Embedding of _clear_pending_failure (outlook_cli.py lines 1612 to
1615). -/
def clear_pending_failure (pending : PendingMap) (dedupe_key : String) : PendingMap :=
  pmRemove pending dedupe_key

/-- The mutable context threaded through attachment processing: the
in-memory completed_keys set, the pending_failures table of the stream
state, and the ledger file contents (appends modelled as list extension). -/
structure ProcState where
  completed : Finset String
  pending : PendingMap
  ledger : List LedgerLine
deriving DecidableEq

/-- The per-message summary returned by process_message_attachments,
restricted to the identity and the four counters the claims speak about. -/
structure ProcResult where
  message_id : String
  attachments_total : Nat
  downloaded_count : Nat
  skipped_count : Nat
  failed_count : Nat
deriving DecidableEq, Repr

/-- The download_one_attachment capability: fetching and saving either
succeeds or fails with a GraphAPIError, OSError or ValueError message.
The saved path is not load-bearing for any claim, so success carries no
data. -/
abbrev Download := String → String → Except String Unit

/-- Embedding of one iteration of the per-attachment loop of
process_message_attachments (outlook_cli.py lines 944 to 1059): dedup
check first, then the missing-id check, then the guarded download with
both failure kinds converted into a pending failure plus a failed ledger
event. -/
def processAttachment (download : Download) (message_id : String) (force_redownload : Bool)
    (now : String) (acc : ProcState × ProcResult) (a : Attachment) : ProcState × ProcResult :=
  let st := acc.1
  let res := acc.2
  let attachment_id := attachmentIdOf a
  let dedupe_key := build_dedupe_key message_id a
  if !force_redownload && decide (dedupe_key ∈ st.completed) then
    ({ st with
        pending := clear_pending_failure st.pending dedupe_key,
        ledger := st.ledger ++ [.event "skipped_already_downloaded" (some dedupe_key)] },
     { res with skipped_count := res.skipped_count + 1 })
  else if attachment_id = "" then
    ({ st with
        pending := record_pending_failure st.pending dedupe_key message_id "" "attachment id missing" now,
        ledger := st.ledger ++ [.event "failed" (some dedupe_key)] },
     { res with failed_count := res.failed_count + 1 })
  else
    match download message_id attachment_id with
    | .ok _ =>
      ({ st with
          completed := insert dedupe_key st.completed,
          pending := clear_pending_failure st.pending dedupe_key,
          ledger := st.ledger ++ [.event "downloaded" (some dedupe_key)] },
       { res with downloaded_count := res.downloaded_count + 1 })
    | .error err =>
      ({ st with
          pending := record_pending_failure st.pending dedupe_key message_id attachment_id err now,
          ledger := st.ledger ++ [.event "failed" (some dedupe_key)] },
       { res with failed_count := res.failed_count + 1 })

/-- Embedding of process_message_attachments (outlook_cli.py lines 899 to
1061): an empty message id short-circuits with one failure, otherwise the
per-attachment loop runs over the whole attachment list.  The now
parameter stands for the wall-clock timestamps recorded into pending
failures. -/
def process_message_attachments (download : Download) (m : Message) (force_redownload : Bool)
    (now : String) (st : ProcState) : ProcState × ProcResult :=
  let message_id := messageIdOf m
  let res0 : ProcResult := ⟨message_id, 0, 0, 0, 0⟩
  if message_id = "" then
    (st, { res0 with failed_count := 1 })
  else
    let res1 := { res0 with attachments_total := m.attachments.length }
    m.attachments.foldl (processAttachment download message_id force_redownload now) (st, res1)

/-- The on-disk artifacts of one stream that survive between runs: the
ledger file and the pending_failures table of the state file. -/
structure StreamFiles where
  ledger : List LedgerLine
  pending : PendingMap
deriving DecidableEq

/-- One iteration of the message loop of run_attachments_download_recent
(outlook_cli.py lines 581 to 595): process the message and accumulate its
summary. -/
def runStep (download : Download) (force_redownload : Bool) (now : String)
    (acc : ProcState × List ProcResult) (m : Message) : ProcState × List ProcResult :=
  let pr := process_message_attachments download m force_redownload now acc.1
  (pr.1, acc.2 ++ [pr.2])

/-- Embedding of the processing core of run_attachments_download_recent
(outlook_cli.py lines 545 to 625): reload the completed set from the
ledger, bracket the run with run_started and run_completed events, and
drive process_message_attachments over the listed messages. -/
def run_download_recent (download : Download) (messages : List Message) (force_redownload : Bool)
    (now : String) (files : StreamFiles) : StreamFiles × List ProcResult :=
  let completed := load_completed_keys files.ledger
  let st0 : ProcState := ⟨completed, files.pending, files.ledger ++ [.event "run_started" none]⟩
  let final := messages.foldl (runStep download force_redownload now) (st0, [])
  (⟨final.1.ledger ++ [.event "run_completed" none], final.1.pending⟩, final.2)

/-- A dedupe key that survives the ledger round trip: appending a
downloaded event carrying it and replaying the ledger yields the key
itself.  Holds for every key built from whitespace-free identifiers. -/
def keyClean (key : String) : Prop :=
  ledgerKeyOf (some key) = key ∧ key ≠ ""

instance (key : String) : Decidable (keyClean key) := by
  unfold keyClean; infer_instance

/-- Constant FIRST_RUN_BACKFILL_DAYS of outlook_cli.py line 50. -/
def FIRST_RUN_BACKFILL_DAYS : Nat := 15

/-- Constant DEFAULT_OVERLAP_HOURS of outlook_cli.py line 47. -/
def DEFAULT_OVERLAP_HOURS : Nat := 48

/-- Constant STATE_VERSION of outlook_cli.py line 51. -/
def STATE_VERSION : Int := 1

/-- Embedding of the maximum observed receive timestamp tracking of
run_attachments_download_new (outlook_cli.py lines 795 and 813 to 815):
each scanned message contributes its parsed receivedDateTime, with
unparseable or absent values contributing none.  Datetimes are modelled
as integers. -/
def maxReceived (received : List (Option Int)) : Option Int :=
  received.foldl
    (fun acc r =>
      match r with
      | none => acc
      | some d =>
        match acc with
        | none => some d
        | some m => if d > m then some d else acc)
    none

/-- Embedding of the cursor commit computation of
run_attachments_download_new (outlook_cli.py lines 820 to 825): the run
start time substitutes for an empty scan, and the previous cursor wins
whenever it is larger. -/
def cursorAfter (cursor_before : Option Int) (received : List (Option Int)) (run_started : Int) : Int :=
  let max_received := (maxReceived received).getD run_started
  match cursor_before with
  | some c => if c > max_received then c else max_received
  | none => max_received

/-- The since lower bound and its since_source label. -/
structure SinceResult where
  since : Int
  since_source : String
deriving DecidableEq, Repr

/-- Embedding of the scan-window computation of
run_attachments_download_new (outlook_cli.py lines 686 to 693): fixed
backfill of FIRST_RUN_BACKFILL_DAYS days on a first run or absent cursor,
else the previous cursor minus the configured overlap hours.  Datetimes
are modelled as integers counting seconds, so a day is 86400 and an hour
3600. -/
def computeSince (first_run_completed : Bool) (cursor_before : Option Int)
    (run_started : Int) (overlap_hours : Nat) : SinceResult :=
  let first_run := !first_run_completed
  if first_run || cursor_before.isNone then
    ⟨run_started - (FIRST_RUN_BACKFILL_DAYS : Int) * 86400,
     "first_run_backfill_" ++ toString FIRST_RUN_BACKFILL_DAYS ++ "d"⟩
  else
    ⟨cursor_before.getD 0 - (overlap_hours : Int) * 3600,
     "cursor_overlap_" ++ toString overlap_hours ++ "h"⟩

/-- The stream state document with the typed fields of
default_stream_state (outlook_cli.py lines 1475 to 1495). -/
structure StreamState where
  version : Int
  profile : String
  account_home_id : String
  folder_id : String
  folder_path : Option String
  first_run_completed : Bool
  cursor_received_utc : Option String
  last_run_started_utc : Option String
  last_run_completed_utc : Option String
  pending_failures : PendingMap
  downloaded_total : Int
  skipped_total : Int
  failed_total : Int
deriving DecidableEq, Repr

/-- Embedding of default_stream_state (outlook_cli.py lines 1475 to
1495). -/
def default_stream_state (profile account_home_id folder_id : String)
    (folder_path : Option String) : StreamState :=
  ⟨STATE_VERSION, profile, account_home_id, folder_id, folder_path,
   false, none, none, none, [], 0, 0, 0⟩

/-- The pending_failures value found in a state file: either a JSON dict
or a value of some other JSON type (the code normalizes the latter to an
empty dict). -/
inductive PendingField
  | notDict
  | dict (entries : PendingMap)
deriving DecidableEq, Repr

/-- The dict parsed from a state file: each field is present or absent, an
absent field keeps its default.  Fields wrapped in a double Option
distinguish an absent key from an explicit JSON null. -/
structure FileDict where
  version : Option Int
  profile : Option String
  account_home_id : Option String
  folder_id : Option String
  folder_path : Option (Option String)
  first_run_completed : Option Bool
  cursor_received_utc : Option (Option String)
  last_run_started_utc : Option (Option String)
  last_run_completed_utc : Option (Option String)
  pending_failures : Option PendingField
  downloaded_total : Option Int
  skipped_total : Option Int
  failed_total : Option Int
deriving DecidableEq, Repr

/-- The observable content of the state file when it exists: text that
json.loads rejects, a JSON value that is not a dict (state.update is then
skipped), or a dict. -/
inductive FileContent
  | malformed
  | nonDict
  | dict (d : FileDict)
deriving DecidableEq, Repr

/-- Embedding of load_stream_state (outlook_cli.py lines 1498 to 1526):
defaults built from the arguments, updated by the file dict when one
parses, with malformed JSON raised as a hard error; afterwards the
pending_failures field is normalized to a dict and the version and
identity fields are overwritten from the arguments, folder_path only when
the argument is truthy. -/
def load_stream_state (file : Option FileContent) (profile account_home_id folder_id : String)
    (folder_path : Option String) : Except String StreamState :=
  let dflt := default_stream_state profile account_home_id folder_id folder_path
  let merged : Except String StreamState :=
    match file with
    | none => .ok dflt
    | some .malformed => .error "Invalid JSON in state file"
    | some .nonDict => .ok dflt
    | some (.dict d) =>
      .ok ⟨d.version.getD dflt.version,
           d.profile.getD dflt.profile,
           d.account_home_id.getD dflt.account_home_id,
           d.folder_id.getD dflt.folder_id,
           d.folder_path.getD dflt.folder_path,
           d.first_run_completed.getD dflt.first_run_completed,
           d.cursor_received_utc.getD dflt.cursor_received_utc,
           d.last_run_started_utc.getD dflt.last_run_started_utc,
           d.last_run_completed_utc.getD dflt.last_run_completed_utc,
           (match d.pending_failures with
            | some (.dict entries) => entries
            | some .notDict => []
            | none => dflt.pending_failures),
           d.downloaded_total.getD dflt.downloaded_total,
           d.skipped_total.getD dflt.skipped_total,
           d.failed_total.getD dflt.failed_total⟩
  match merged with
  | .error e => .error e
  | .ok st =>
    .ok { st with
      version := STATE_VERSION
      profile := profile
      account_home_id := account_home_id
      folder_id := folder_id
      folder_path :=
        match folder_path with
        | some p => if p ≠ "" then some p else st.folder_path
        | none => st.folder_path }

/-- A filesystem path split the way uniquify_path reads it: parent
directory, stem and suffix. -/
structure SimplePath where
  parent : String
  stem : String
  suffix : String
deriving DecidableEq, Repr

/-- The numbered candidate parent slash stem underscore index suffix built
inside the loop of uniquify_path. -/
def uniquifyCandidate (path : SimplePath) (index : Nat) : SimplePath :=
  ⟨path.parent, path.stem ++ "_" ++ toString index, path.suffix⟩

/-- The for loop of uniquify_path over range(1, 1000): index counts up
from 1 and remaining counts the candidates still allowed. -/
def uniquifySearch (pathExists : SimplePath → Bool) (path : SimplePath)
    (index : Nat) (remaining : Nat) : Except String SimplePath :=
  match remaining with
  | 0 => .error ("Could not find free filename for " ++ path.stem ++ path.suffix)
  | r + 1 =>
    let candidate := uniquifyCandidate path index
    if pathExists candidate then uniquifySearch pathExists path (index + 1) r
    else .ok candidate

/-- Embedding of uniquify_path (outlook_cli.py lines 1681 to 1693): the
path itself when nothing exists there, else the first free numbered
candidate among indices 1 to 999, else an OSError.  The filesystem is the
pathExists parameter. -/
def uniquify_path (pathExists : SimplePath → Bool) (path : SimplePath) : Except String SimplePath :=
  if pathExists path then uniquifySearch pathExists path 1 999
  else .ok path

/-! Theorems -/

/-- C3: build_dedupe_key returns message id colon attachment id when the
attachment carries a non-empty (stripped) id, otherwise the fallback key
of message id, name and declared size; it is deterministic and two
attachments agreeing on a non-empty attachment id map to the same key
whatever their other fields. -/
theorem build_dedupe_key_spec (m : String) (a : Attachment) :
    (attachmentIdOf a ≠ "" → build_dedupe_key m a = m ++ ":" ++ attachmentIdOf a)
    ∧ (attachmentIdOf a = "" →
        build_dedupe_key m a =
          m ++ ":" ++ pyStrOrDefault a.name "attachment" ++ ":" ++ pyStrOfOptInt a.size)
    ∧ (∀ b : Attachment, attachmentIdOf b = attachmentIdOf a → attachmentIdOf a ≠ "" →
        build_dedupe_key m b = build_dedupe_key m a) := by
  refine ⟨fun h => ?_, fun h => ?_, fun b hb h => ?_⟩
  · simp [build_dedupe_key, h]
  · simp [build_dedupe_key, h]
  · simp [build_dedupe_key, hb, h]

/-- Witness for C3 at concrete attachments. -/
theorem build_dedupe_key_spec_witness :
    build_dedupe_key "m1" ⟨some "a1", some "report.pdf", some 10, none, false⟩ =
      "m1" ++ ":" ++ attachmentIdOf ⟨some "a1", some "report.pdf", some 10, none, false⟩
    ∧ build_dedupe_key "m1" ⟨none, some "report.pdf", some 10, none, false⟩ =
      "m1" ++ ":" ++ pyStrOrDefault (some "report.pdf") "attachment" ++ ":" ++ pyStrOfOptInt (some 10)
    ∧ build_dedupe_key "m1" ⟨some "a1", some "other.txt", some 99, some "text", true⟩ =
      build_dedupe_key "m1" ⟨some "a1", some "report.pdf", some 10, none, false⟩ :=
  ⟨(build_dedupe_key_spec "m1" _).1 (by decide),
   (build_dedupe_key_spec "m1" _).2.1 (by decide),
   (build_dedupe_key_spec "m1" _).2.2 _ (by decide) (by decide)⟩

/-- C2: the incremental scan lower bound is run start minus exactly the
fixed fifteen day backfill window when first_run_completed is false or
the cursor is absent, else the previous cursor minus the configured
overlap hours, and since_source names the rule that applied; the overlap
default constant is 48. -/
theorem compute_since_spec (first_run_completed : Bool) (cursor_before : Option Int)
    (run_started : Int) (overlap_hours : Nat) :
    (first_run_completed = false ∨ cursor_before = none →
      computeSince first_run_completed cursor_before run_started overlap_hours =
        ⟨run_started - 15 * 86400, "first_run_backfill_15d"⟩)
    ∧ (∀ c : Int, first_run_completed = true → cursor_before = some c →
      computeSince first_run_completed cursor_before run_started overlap_hours =
        ⟨c - (overlap_hours : Int) * 3600, "cursor_overlap_" ++ toString overlap_hours ++ "h"⟩)
    ∧ FIRST_RUN_BACKFILL_DAYS = 15 ∧ DEFAULT_OVERLAP_HOURS = 48 := by
  refine ⟨fun h => ?_, fun c h1 h2 => ?_, rfl, rfl⟩
  · unfold computeSince
    rcases h with h | h
    · subst h
      simp [FIRST_RUN_BACKFILL_DAYS]
      decide
    · subst h
      simp [FIRST_RUN_BACKFILL_DAYS]
      decide
  · subst h1; subst h2
    simp [computeSince]

/-- Witness for C2 on both branches. -/
theorem compute_since_spec_witness :
    computeSince false (some 100) 1000 48 = ⟨1000 - 15 * 86400, "first_run_backfill_15d"⟩
    ∧ computeSince true (some 100) 1000 48 =
        ⟨100 - (48 : Int) * 3600, "cursor_overlap_" ++ toString (48 : Nat) ++ "h"⟩ :=
  ⟨(compute_since_spec false (some 100) 1000 48).1 (Or.inl rfl),
   (compute_since_spec true (some 100) 1000 48).2.1 100 rfl rfl⟩

/-- C1: the committed cursor never moves backward: it always dominates the
previous cursor, and when the scan observed at least one parseable
receive timestamp the committed cursor is exactly the maximum of the
previous cursor and the maximum observed timestamp. -/
theorem cursor_monotonic (c run_started : Int) (received : List (Option Int)) :
    c ≤ cursorAfter (some c) received run_started
    ∧ (∀ mo : Int, maxReceived received = some mo →
        cursorAfter (some c) received run_started = max c mo) := by
  constructor
  · unfold cursorAfter
    cases h : maxReceived received <;> simp [h] <;> split <;> omega
  · intro mo h
    unfold cursorAfter
    simp [h]
    rw [max_def]
    split <;> split <;> omega

/-- Witness for C1: the out-of-order scan [3, unparseable, 9] with
previous cursor 5 commits max 5 9. -/
theorem cursor_monotonic_witness :
    (5 : Int) ≤ cursorAfter (some 5) [some 3, none, some 9] 7
    ∧ cursorAfter (some 5) [some 3, none, some 9] 7 = max 5 9 :=
  ⟨(cursor_monotonic 5 7 [some 3, none, some 9]).1,
   (cursor_monotonic 5 7 [some 3, none, some 9]).2 9 (by decide)⟩

/-- C9: when the scan observes no parseable receive timestamp at all,
including the empty scan, the committed cursor is the maximum of the
previous cursor and the run start time. -/
theorem cursor_empty_scan (run_started : Int) (received : List (Option Int)) :
    maxReceived received = none →
    (∀ c : Int, cursorAfter (some c) received run_started = max c run_started)
    ∧ cursorAfter none received run_started = run_started := by
  intro h
  constructor
  · intro c
    unfold cursorAfter
    simp [h]
    rw [max_def]
    split <;> split <;> omega
  · unfold cursorAfter
    simp [h]

/-- Witness for C9: a run that scans zero messages advances the cursor of
2 to the run start 10. -/
theorem cursor_empty_scan_witness :
    cursorAfter (some 2) [] 10 = max 2 10 ∧ cursorAfter none [] 10 = 10 :=
  ⟨(cursor_empty_scan 10 [] rfl).1 2, (cursor_empty_scan 10 [] rfl).2⟩

/-- Replaying a blank line changes nothing. -/
theorem ledgerStep_blank (acc : Finset String) : ledgerStep acc .blank = acc := rfl

/-- Replaying an unparseable line changes nothing. -/
theorem ledgerStep_malformed (acc : Finset String) : ledgerStep acc .malformed = acc := rfl

/-- Replaying an event of any kind other than downloaded changes nothing. -/
theorem ledgerStep_event_nondl (acc : Finset String) (kind : String) (dk : Option String)
    (h : kind ≠ "downloaded") : ledgerStep acc (.event kind dk) = acc := by
  simp [ledgerStep, h]

/-- Replaying a downloaded event whose key strips to empty changes
nothing. -/
theorem ledgerStep_event_dl_empty (acc : Finset String) (dk : Option String)
    (hz : ledgerKeyOf dk = "") : ledgerStep acc (.event "downloaded" dk) = acc := by
  simp [ledgerStep, hz]

/-- Replaying a downloaded event with a non-empty stripped key inserts that
key. -/
theorem ledgerStep_event_dl (acc : Finset String) (dk : Option String)
    (hz : ledgerKeyOf dk ≠ "") :
    ledgerStep acc (.event "downloaded" dk) = insert (ledgerKeyOf dk) acc := by
  simp [ledgerStep, hz]

/-- Membership after folding the ledger read loop from any accumulator. -/
theorem mem_foldl_ledgerStep (lines : List LedgerLine) :
    ∀ (acc : Finset String) (k : String),
      k ∈ lines.foldl ledgerStep acc ↔
        k ∈ acc ∨ (k ≠ "" ∧ ∃ dk, LedgerLine.event "downloaded" dk ∈ lines ∧ ledgerKeyOf dk = k) := by
  induction lines with
  | nil => simp
  | cons line rest ih =>
    intro acc k
    rw [List.foldl_cons, ih]
    cases line with
    | blank => simp [ledgerStep_blank]
    | malformed => simp [ledgerStep_malformed]
    | event kind dk =>
      by_cases hkind : kind = "downloaded"
      · subst hkind
        by_cases hz : ledgerKeyOf dk = ""
        · rw [ledgerStep_event_dl_empty acc dk hz]
          constructor
          · rintro (h | ⟨hne, dk', hmem, hkey⟩)
            · exact Or.inl h
            · exact Or.inr ⟨hne, dk', List.mem_cons_of_mem _ hmem, hkey⟩
          · rintro (h | ⟨hne, dk', hmem, hkey⟩)
            · exact Or.inl h
            · rcases List.mem_cons.mp hmem with heq | hmem'
              · cases heq
                exact absurd (hz ▸ hkey) (Ne.symm hne)
              · exact Or.inr ⟨hne, dk', hmem', hkey⟩
        · rw [ledgerStep_event_dl acc dk hz]
          constructor
          · rintro (h | ⟨hne, dk', hmem, hkey⟩)
            · rcases Finset.mem_insert.mp h with heq | hacc
              · exact Or.inr ⟨heq ▸ hz, dk, List.mem_cons_self _ _, heq.symm⟩
              · exact Or.inl hacc
            · exact Or.inr ⟨hne, dk', List.mem_cons_of_mem _ hmem, hkey⟩
          · rintro (h | ⟨hne, dk', hmem, hkey⟩)
            · exact Or.inl (Finset.mem_insert_of_mem h)
            · rcases List.mem_cons.mp hmem with heq | hmem'
              · cases heq
                exact Or.inl (hkey ▸ Finset.mem_insert_self _ _)
              · exact Or.inr ⟨hne, dk', hmem', hkey⟩
      · rw [ledgerStep_event_nondl acc kind dk hkind]
        constructor
        · rintro (h | ⟨hne, dk', hmem, hkey⟩)
          · exact Or.inl h
          · exact Or.inr ⟨hne, dk', List.mem_cons_of_mem _ hmem, hkey⟩
        · rintro (h | ⟨hne, dk', hmem, hkey⟩)
          · exact Or.inl h
          · rcases List.mem_cons.mp hmem with heq | hmem'
            · cases heq
              exact absurd rfl hkind
            · exact Or.inr ⟨hne, dk', hmem', hkey⟩

/-- C4: load_completed_keys returns exactly the non-empty stripped dedupe
keys of downloaded events; blank lines, unparseable lines and events of
any other kind are skipped without affecting the result, so a corrupt
line never fails the load. -/
theorem load_completed_keys_spec :
    (∀ (lines : List LedgerLine) (k : String),
      k ∈ load_completed_keys lines ↔
        k ≠ "" ∧ ∃ dk, LedgerLine.event "downloaded" dk ∈ lines ∧ ledgerKeyOf dk = k)
    ∧ (∀ pre post : List LedgerLine,
        load_completed_keys (pre ++ LedgerLine.malformed :: post) =
          load_completed_keys (pre ++ post))
    ∧ (∀ pre post : List LedgerLine,
        load_completed_keys (pre ++ LedgerLine.blank :: post) =
          load_completed_keys (pre ++ post))
    ∧ (∀ (pre post : List LedgerLine) (kind : String) (dk : Option String),
        kind ≠ "downloaded" →
        load_completed_keys (pre ++ LedgerLine.event kind dk :: post) =
          load_completed_keys (pre ++ post)) := by
  refine ⟨?_, ?_, ?_, ?_⟩
  · intro lines k
    rw [load_completed_keys, mem_foldl_ledgerStep]
    simp
  · intro pre post
    unfold load_completed_keys
    rw [List.foldl_append, List.foldl_append, List.foldl_cons, ledgerStep_malformed]
  · intro pre post
    unfold load_completed_keys
    rw [List.foldl_append, List.foldl_append, List.foldl_cons, ledgerStep_blank]
  · intro pre post kind dk h
    unfold load_completed_keys
    rw [List.foldl_append, List.foldl_append, List.foldl_cons, ledgerStep_event_nondl _ _ _ h]

/-- Witness for C4: a failed event in the middle of a ledger contributes
nothing, and the downloaded key k1 is reported. -/
theorem load_completed_keys_spec_witness :
    load_completed_keys [LedgerLine.event "downloaded" (some "k1"),
        LedgerLine.event "failed" (some "k2"), LedgerLine.malformed] =
      load_completed_keys [LedgerLine.event "downloaded" (some "k1"), LedgerLine.malformed]
    ∧ ("k1" ∈ load_completed_keys [LedgerLine.event "downloaded" (some "k1")] ↔
        "k1" ≠ "" ∧ ∃ dk, LedgerLine.event "downloaded" dk ∈
          [LedgerLine.event "downloaded" (some "k1")] ∧ ledgerKeyOf dk = "k1") :=
  ⟨load_completed_keys_spec.2.2.2 [LedgerLine.event "downloaded" (some "k1")]
      [LedgerLine.malformed] "failed" (some "k2") (by decide),
   load_completed_keys_spec.1 [LedgerLine.event "downloaded" (some "k1")] "k1"⟩

/-- A successful search result is a path the filesystem predicate rejects:
the loop only ever returns a candidate that does not exist. -/
theorem uniquifySearch_ok_not_exists (pathExists : SimplePath → Bool) (path : SimplePath) :
    ∀ (remaining index : Nat) (q : SimplePath),
      uniquifySearch pathExists path index remaining = .ok q → pathExists q = false := by
  intro remaining
  induction remaining with
  | zero => intro index q h; simp [uniquifySearch] at h
  | succ r ih =>
    intro index q h
    unfold uniquifySearch at h
    by_cases hc : pathExists (uniquifyCandidate path index) = true
    · rw [if_pos hc] at h
      exact ih (index + 1) q h
    · rw [if_neg hc] at h
      cases h
      exact Bool.not_eq_true _ |>.mp hc

/-- A successful search returns the first free candidate in its range. -/
theorem uniquifySearch_ok_first (pathExists : SimplePath → Bool) (path : SimplePath) :
    ∀ (remaining index : Nat) (q : SimplePath),
      uniquifySearch pathExists path index remaining = .ok q →
      ∃ k, index ≤ k ∧ k < index + remaining ∧ q = uniquifyCandidate path k
        ∧ pathExists (uniquifyCandidate path k) = false
        ∧ ∀ j, index ≤ j → j < k → pathExists (uniquifyCandidate path j) = true := by
  intro remaining
  induction remaining with
  | zero => intro index q h; simp [uniquifySearch] at h
  | succ r ih =>
    intro index q h
    unfold uniquifySearch at h
    by_cases hc : pathExists (uniquifyCandidate path index) = true
    · rw [if_pos hc] at h
      obtain ⟨k, hk1, hk2, hk3, hk4, hk5⟩ := ih (index + 1) q h
      refine ⟨k, by omega, by omega, hk3, hk4, fun j hj1 hj2 => ?_⟩
      rcases Nat.eq_or_lt_of_le hj1 with heq | hlt
      · exact heq ▸ hc
      · exact hk5 j hlt hj2
    · rw [if_neg hc] at h
      cases h
      exact ⟨index, le_refl _, by omega, rfl, Bool.not_eq_true _ |>.mp hc,
        fun j hj1 hj2 => absurd (Nat.lt_of_le_of_lt hj1 hj2) (lt_irrefl _)⟩

/-- When every candidate in range exists, the search raises the OSError. -/
theorem uniquifySearch_all_taken (pathExists : SimplePath → Bool) (path : SimplePath) :
    ∀ (remaining index : Nat),
      (∀ k, index ≤ k → k < index + remaining → pathExists (uniquifyCandidate path k) = true) →
      uniquifySearch pathExists path index remaining =
        .error ("Could not find free filename for " ++ path.stem ++ path.suffix) := by
  intro remaining
  induction remaining with
  | zero => intro index _; rfl
  | succ r ih =>
    intro index hall
    unfold uniquifySearch
    rw [if_pos (hall index (le_refl _) (by omega))]
    exact ih (index + 1) (fun k hk1 hk2 => hall k (by omega) (by omega))

/-- C8: uniquify_path returns the path itself when nothing exists there;
any returned path does not exist, so an existing file is never clobbered
and two successive saves of the same name yield distinct files; when the
original exists the result is the first free numbered candidate among
indices 1 to 999; and when the original and all 999 candidates exist it
raises an error. -/
theorem uniquify_path_spec :
    (∀ (pathExists : SimplePath → Bool) (path q : SimplePath),
        uniquify_path pathExists path = .ok q → pathExists q = false)
    ∧ (∀ (pathExists : SimplePath → Bool) (path : SimplePath),
        pathExists path = false → uniquify_path pathExists path = .ok path)
    ∧ (∀ (pathExists : SimplePath → Bool) (path q : SimplePath) (k : Nat),
        pathExists path = true → uniquify_path pathExists path = .ok q →
        1 ≤ k → k ≤ 999 → pathExists (uniquifyCandidate path k) = false →
        (∀ j, 1 ≤ j → j < k → pathExists (uniquifyCandidate path j) = true) →
        q = uniquifyCandidate path k)
    ∧ (∀ (pathExists : SimplePath → Bool) (path : SimplePath),
        pathExists path = true →
        (∀ k, 1 ≤ k → k ≤ 999 → pathExists (uniquifyCandidate path k) = true) →
        uniquify_path pathExists path =
          .error ("Could not find free filename for " ++ path.stem ++ path.suffix))
    ∧ (∀ (pathExists : SimplePath → Bool) (path q1 q2 : SimplePath),
        uniquify_path pathExists path = .ok q1 →
        uniquify_path (fun r => pathExists r || decide (r = q1)) path = .ok q2 →
        q2 ≠ q1) := by
  have hok : ∀ (pathExists : SimplePath → Bool) (path q : SimplePath),
      uniquify_path pathExists path = .ok q → pathExists q = false := by
    intro pathExists path q h
    unfold uniquify_path at h
    by_cases hp : pathExists path = true
    · rw [if_pos hp] at h
      exact uniquifySearch_ok_not_exists pathExists path 999 1 q h
    · rw [if_neg hp] at h
      cases h
      exact Bool.not_eq_true _ |>.mp hp
  refine ⟨hok, ?_, ?_, ?_, ?_⟩
  · intro pathExists path h
    unfold uniquify_path
    rw [if_neg]
    simp [h]
  · intro pathExists path q k hp h hk1 hk2 hfree hbefore
    unfold uniquify_path at h
    rw [if_pos hp] at h
    obtain ⟨k0, h01, h02, h03, h04, h05⟩ := uniquifySearch_ok_first pathExists path 999 1 q h
    have : k0 = k := by
      rcases Nat.lt_trichotomy k0 k with hlt | heq | hgt
      · exact absurd (hbefore k0 h01 hlt) (by simp [h04])
      · exact heq
      · exact absurd (h05 k hk1 hgt) (by simp [hfree])
    exact this ▸ h03
  · intro pathExists path hp hall
    unfold uniquify_path
    rw [if_pos hp]
    exact uniquifySearch_all_taken pathExists path 999 1
      (fun k hk1 hk2 => hall k hk1 (by omega))
  · intro pathExists path q1 q2 h1 h2
    have := hok (fun r => pathExists r || decide (r = q1)) path q2 h2
    intro heq
    rw [heq] at this
    simp at this

/-- Witness for C8 at a concrete one-file directory. -/
theorem uniquify_path_spec_witness :
    (fun r => decide (r = (⟨"dir", "name", ".ext"⟩ : SimplePath)))
        (uniquifyCandidate ⟨"dir", "name", ".ext"⟩ 1) = false
    ∧ uniquify_path (fun _ => false) ⟨"dir", "name", ".ext"⟩ = .ok ⟨"dir", "name", ".ext"⟩
    ∧ (Except.ok (uniquifyCandidate (⟨"dir", "name", ".ext"⟩ : SimplePath) 1) :
        Except String SimplePath) = .ok (uniquifyCandidate ⟨"dir", "name", ".ext"⟩ 1)
    ∧ uniquify_path (fun _ => true) ⟨"dir", "name", ".ext"⟩ =
        .error ("Could not find free filename for " ++ "name" ++ ".ext")
    ∧ uniquifyCandidate (⟨"dir", "name", ".ext"⟩ : SimplePath) 2 ≠
        uniquifyCandidate ⟨"dir", "name", ".ext"⟩ 1 := by
  refine ⟨?_, ?_, ?_, ?_, ?_⟩
  · exact uniquify_path_spec.1 (fun r => decide (r = (⟨"dir", "name", ".ext"⟩ : SimplePath)))
      ⟨"dir", "name", ".ext"⟩ (uniquifyCandidate ⟨"dir", "name", ".ext"⟩ 1) rfl
  · exact uniquify_path_spec.2.1 (fun _ => false) ⟨"dir", "name", ".ext"⟩ rfl
  · have := uniquify_path_spec.2.2.1
      (fun r => decide (r = (⟨"dir", "name", ".ext"⟩ : SimplePath)))
      ⟨"dir", "name", ".ext"⟩ (uniquifyCandidate ⟨"dir", "name", ".ext"⟩ 1) 1
      (by decide) rfl (le_refl 1) (by omega) (by decide)
      (fun j hj1 hj2 => absurd (Nat.lt_of_le_of_lt hj1 hj2) (lt_irrefl 1))
    rw [this]
  · exact uniquify_path_spec.2.2.2.1 (fun _ => true) ⟨"dir", "name", ".ext"⟩ rfl
      (fun _ _ _ => rfl)
  · exact uniquify_path_spec.2.2.2.2
      (fun r => decide (r = (⟨"dir", "name", ".ext"⟩ : SimplePath)))
      ⟨"dir", "name", ".ext"⟩ (uniquifyCandidate ⟨"dir", "name", ".ext"⟩ 1)
      (uniquifyCandidate ⟨"dir", "name", ".ext"⟩ 2) rfl rfl

/-- C7: load_stream_state returns the pure defaults when the state file is
absent, raises a hard error when the file holds malformed JSON, and
otherwise returns the defaults overridden field by field by whatever the
file dict carries (shown for every load-bearing non-identity field). -/
theorem load_stream_state_spec (profile account_home_id folder_id : String)
    (folder_path : Option String) :
    (load_stream_state none profile account_home_id folder_id folder_path =
      .ok (default_stream_state profile account_home_id folder_id folder_path))
    ∧ (load_stream_state (some .malformed) profile account_home_id folder_id folder_path =
      .error "Invalid JSON in state file")
    ∧ (∀ d : FileDict,
        (load_stream_state (some (.dict d)) profile account_home_id folder_id folder_path).map
            StreamState.first_run_completed = .ok (d.first_run_completed.getD false)
        ∧ (load_stream_state (some (.dict d)) profile account_home_id folder_id folder_path).map
            StreamState.cursor_received_utc = .ok (d.cursor_received_utc.getD none)
        ∧ (load_stream_state (some (.dict d)) profile account_home_id folder_id folder_path).map
            StreamState.last_run_started_utc = .ok (d.last_run_started_utc.getD none)
        ∧ (load_stream_state (some (.dict d)) profile account_home_id folder_id folder_path).map
            StreamState.last_run_completed_utc = .ok (d.last_run_completed_utc.getD none)
        ∧ (load_stream_state (some (.dict d)) profile account_home_id folder_id folder_path).map
            StreamState.downloaded_total = .ok (d.downloaded_total.getD 0)
        ∧ (load_stream_state (some (.dict d)) profile account_home_id folder_id folder_path).map
            StreamState.skipped_total = .ok (d.skipped_total.getD 0)
        ∧ (load_stream_state (some (.dict d)) profile account_home_id folder_id folder_path).map
            StreamState.failed_total = .ok (d.failed_total.getD 0)
        ∧ (∀ entries : PendingMap, d.pending_failures = some (.dict entries) →
            (load_stream_state (some (.dict d)) profile account_home_id folder_id folder_path).map
              StreamState.pending_failures = .ok entries)) := by
  refine ⟨?_, rfl, ?_⟩
  · unfold load_stream_state default_stream_state
    cases folder_path with
    | none => rfl
    | some p =>
      by_cases hp : p = ""
      · simp [hp]
      · simp [hp]
  · intro d
    refine ⟨?_, ?_, ?_, ?_, ?_, ?_, ?_, ?_⟩ <;>
      first
        | (intro entries he; simp [load_stream_state, default_stream_state, Except.map, he])
        | simp [load_stream_state, default_stream_state, Except.map]

/-- Witness for C7 on a concrete dict with a cursor, pending table and
counter present and every other field absent. -/
theorem load_stream_state_spec_witness :
    load_stream_state none "p" "acct" "fid" none =
      .ok (default_stream_state "p" "acct" "fid" none)
    ∧ load_stream_state (some .malformed) "p" "acct" "fid" none =
      .error "Invalid JSON in state file"
    ∧ (load_stream_state (some (.dict ⟨none, none, none, none, none, some true,
          some (some "2026-01-01T00:00:00Z"), none, none, some (.dict []), some 3, none, none⟩))
          "p" "acct" "fid" none).map StreamState.cursor_received_utc =
        .ok ((some (some "2026-01-01T00:00:00Z")).getD none)
    ∧ (load_stream_state (some (.dict ⟨none, none, none, none, none, some true,
          some (some "2026-01-01T00:00:00Z"), none, none, some (.dict []), some 3, none, none⟩))
          "p" "acct" "fid" none).map StreamState.pending_failures = .ok [] :=
  ⟨(load_stream_state_spec "p" "acct" "fid" none).1,
   (load_stream_state_spec "p" "acct" "fid" none).2.1,
   ((load_stream_state_spec "p" "acct" "fid" none).2.2 _).2.1,
   ((load_stream_state_spec "p" "acct" "fid" none).2.2 _).2.2.2.2.2.2.2 [] rfl⟩

/-- The dedup branch of the per-attachment loop: with force_redownload
false and the dedupe key already completed, the attachment is recorded as
skipped, its stale pending failure is cleared and a
skipped_already_downloaded event is appended, whatever the rest of the
attachment looks like. -/
theorem processAttachment_skip (download : Download) (message_id : String) (now : String)
    (a : Attachment) (p : ProcState × ProcResult)
    (h : build_dedupe_key message_id a ∈ p.1.completed) :
    processAttachment download message_id false now p a =
      ({ p.1 with
          pending := clear_pending_failure p.1.pending (build_dedupe_key message_id a),
          ledger := p.1.ledger ++
            [.event "skipped_already_downloaded" (some (build_dedupe_key message_id a))] },
       { p.2 with skipped_count := p.2.skipped_count + 1 }) := by
  unfold processAttachment
  simp [h]

/-- The missing-id branch of the per-attachment loop: key not completed
and empty attachment id yield a recorded failure. -/
theorem processAttachment_missing (download : Download) (message_id : String)
    (force_redownload : Bool) (now : String) (a : Attachment) (p : ProcState × ProcResult)
    (hn : build_dedupe_key message_id a ∉ p.1.completed)
    (hid : attachmentIdOf a = "") :
    processAttachment download message_id force_redownload now p a =
      ({ p.1 with
          pending := record_pending_failure p.1.pending (build_dedupe_key message_id a)
            message_id "" "attachment id missing" now,
          ledger := p.1.ledger ++ [.event "failed" (some (build_dedupe_key message_id a))] },
       { p.2 with failed_count := p.2.failed_count + 1 }) := by
  unfold processAttachment
  simp [hn, hid]

/-- The successful download branch of the per-attachment loop. -/
theorem processAttachment_ok (download : Download) (message_id : String)
    (force_redownload : Bool) (now : String) (a : Attachment) (p : ProcState × ProcResult)
    (hn : build_dedupe_key message_id a ∉ p.1.completed)
    (hid : attachmentIdOf a ≠ "")
    (hdl : download message_id (attachmentIdOf a) = .ok ()) :
    processAttachment download message_id force_redownload now p a =
      ({ p.1 with
          completed := insert (build_dedupe_key message_id a) p.1.completed,
          pending := clear_pending_failure p.1.pending (build_dedupe_key message_id a),
          ledger := p.1.ledger ++ [.event "downloaded" (some (build_dedupe_key message_id a))] },
       { p.2 with downloaded_count := p.2.downloaded_count + 1 }) := by
  unfold processAttachment
  simp [hn, hid, hdl]

/-- The failed download branch of the per-attachment loop. -/
theorem processAttachment_err (download : Download) (message_id : String)
    (force_redownload : Bool) (now : String) (a : Attachment) (p : ProcState × ProcResult)
    (e : String)
    (hn : build_dedupe_key message_id a ∉ p.1.completed)
    (hid : attachmentIdOf a ≠ "")
    (hdl : download message_id (attachmentIdOf a) = .error e) :
    processAttachment download message_id force_redownload now p a =
      ({ p.1 with
          pending := record_pending_failure p.1.pending (build_dedupe_key message_id a)
            message_id (attachmentIdOf a) e now,
          ledger := p.1.ledger ++ [.event "failed" (some (build_dedupe_key message_id a))] },
       { p.2 with failed_count := p.2.failed_count + 1 }) := by
  unfold processAttachment
  simp [hn, hid, hdl]

/-- Looking up the key just assigned returns the assigned entry. -/
theorem pmLookup_pmSet_self (pending : PendingMap) (key : String) (entry : PendingEntry) :
    pmLookup (pmSet pending key entry) key = some entry := by
  unfold pmLookup pmSet
  rw [List.find?_cons_of_pos]
  simp

/-- C10: the dedup membership test runs before the attachment id check:
an attachment without an id whose fallback dedupe key is already in the
completed set is recorded as a skip with a skipped_already_downloaded
event, not as a missing-id failure. -/
theorem dedup_check_precedes_missing_id (download : Download) (message_id : String)
    (now : String) (a : Attachment) (p : ProcState × ProcResult)
    (_hid : attachmentIdOf a = "")
    (h : build_dedupe_key message_id a ∈ p.1.completed) :
    processAttachment download message_id false now p a =
      ({ p.1 with
          pending := clear_pending_failure p.1.pending (build_dedupe_key message_id a),
          ledger := p.1.ledger ++
            [.event "skipped_already_downloaded" (some (build_dedupe_key message_id a))] },
       { p.2 with skipped_count := p.2.skipped_count + 1 }) := by
  unfold processAttachment
  simp [h]

/-- Witness for C10: an id-less attachment whose fallback key is in the
completed set is skipped rather than failed. -/
theorem dedup_check_precedes_missing_id_witness :
    processAttachment (fun _ _ => .error "network down") "m1" false "t0"
        (⟨{"m1:report.pdf:10"}, [], []⟩, ⟨"m1", 1, 0, 0, 0⟩)
        ⟨none, some "report.pdf", some 10, none, false⟩ =
      ({ completed := {"m1:report.pdf:10"}, pending := clear_pending_failure [] "m1:report.pdf:10",
         ledger := [] ++ [.event "skipped_already_downloaded" (some "m1:report.pdf:10")] },
       ⟨"m1", 1, 0, 0 + 1, 0⟩) := by
  have h := dedup_check_precedes_missing_id (fun _ _ => .error "network down") "m1" "t0"
    ⟨none, some "report.pdf", some 10, none, false⟩
    (⟨{"m1:report.pdf:10"}, [], []⟩, ⟨"m1", 1, 0, 0, 0⟩) (by decide) (by decide)
  simpa using h

/-- Every branch of the per-attachment loop accounts for exactly one
attachment: the three counters together grow by one, and the identity
fields are untouched. -/
theorem processAttachment_counts (download : Download) (message_id : String)
    (force_redownload : Bool) (now : String) (p : ProcState × ProcResult) (a : Attachment) :
    (processAttachment download message_id force_redownload now p a).2.downloaded_count
      + (processAttachment download message_id force_redownload now p a).2.skipped_count
      + (processAttachment download message_id force_redownload now p a).2.failed_count
      = p.2.downloaded_count + p.2.skipped_count + p.2.failed_count + 1
    ∧ (processAttachment download message_id force_redownload now p a).2.attachments_total
      = p.2.attachments_total
    ∧ (processAttachment download message_id force_redownload now p a).2.message_id
      = p.2.message_id := by
  unfold processAttachment
  by_cases h1 : (!force_redownload && decide (build_dedupe_key message_id a ∈ p.1.completed)) = true
  · simp [h1]
    omega
  · rw [Bool.not_eq_true] at h1
    by_cases h2 : attachmentIdOf a = ""
    · simp [h1, h2]
      omega
    · cases hdl : download message_id (attachmentIdOf a) with
      | ok u => cases u; simp [h1, h2, hdl]; omega
      | error e => simp [h1, h2, hdl]; omega

/-- Folding the per-attachment loop accounts for every attachment in the
list: no failure stops the fold short. -/
theorem foldl_processAttachment_counts (download : Download) (message_id : String)
    (force_redownload : Bool) (now : String) :
    ∀ (attachments : List Attachment) (p : ProcState × ProcResult),
      ((attachments.foldl (processAttachment download message_id force_redownload now) p).2.downloaded_count
        + (attachments.foldl (processAttachment download message_id force_redownload now) p).2.skipped_count
        + (attachments.foldl (processAttachment download message_id force_redownload now) p).2.failed_count
        = p.2.downloaded_count + p.2.skipped_count + p.2.failed_count + attachments.length)
      ∧ (attachments.foldl (processAttachment download message_id force_redownload now) p).2.attachments_total
        = p.2.attachments_total := by
  intro attachments
  induction attachments with
  | nil => intro p; simp
  | cons a rest ih =>
    intro p
    rw [List.foldl_cons]
    obtain ⟨h1, h2, _⟩ := processAttachment_counts download message_id force_redownload now p a
    obtain ⟨g1, g2⟩ := ih (processAttachment download message_id force_redownload now p a)
    refine ⟨?_, ?_⟩
    · rw [g1, h1]
      simp [List.length_cons]
      omega
    · rw [g2, h2]

/-- The message loop of a run appends exactly one summary per listed
message. -/
theorem foldl_runStep_length (download : Download) (force_redownload : Bool) (now : String) :
    ∀ (messages : List Message) (q : ProcState × List ProcResult),
      ((messages.foldl (runStep download force_redownload now) q).2).length
        = q.2.length + messages.length := by
  intro messages
  induction messages with
  | nil => intro q; simp
  | cons m rest ih =>
    intro q
    rw [List.foldl_cons]
    rw [ih (runStep download force_redownload now q m)]
    simp [runStep]
    omega

/-- C6: failure isolation inside process_message_attachments: for a
message with an id, every attachment of the list is accounted for by
exactly one of the downloaded, skipped or failed counters (so no
per-attachment error can abort the loop); a failing download is converted
into a failed ledger event plus a pending-failure entry that records the
error, and processing still accounts for the remaining attachments; and
the run loop always produces one summary per message. -/
theorem failure_isolation (download : Download) (m : Message) (force_redownload : Bool)
    (now : String) (st : ProcState) :
    (messageIdOf m ≠ "" →
      (process_message_attachments download m force_redownload now st).2.attachments_total
        = m.attachments.length
      ∧ (process_message_attachments download m force_redownload now st).2.downloaded_count
        + (process_message_attachments download m force_redownload now st).2.skipped_count
        + (process_message_attachments download m force_redownload now st).2.failed_count
        = m.attachments.length)
    ∧ (∀ (a : Attachment) (p : ProcState × ProcResult) (e : String),
        build_dedupe_key (messageIdOf m) a ∉ p.1.completed →
        attachmentIdOf a ≠ "" →
        download (messageIdOf m) (attachmentIdOf a) = .error e →
        processAttachment download (messageIdOf m) force_redownload now p a =
          ({ p.1 with
              pending := record_pending_failure p.1.pending (build_dedupe_key (messageIdOf m) a)
                (messageIdOf m) (attachmentIdOf a) e now,
              ledger := p.1.ledger ++
                [.event "failed" (some (build_dedupe_key (messageIdOf m) a))] },
           { p.2 with failed_count := p.2.failed_count + 1 })
        ∧ pmLookup (record_pending_failure p.1.pending (build_dedupe_key (messageIdOf m) a)
              (messageIdOf m) (attachmentIdOf a) e now) (build_dedupe_key (messageIdOf m) a) =
            some ⟨messageIdOf m, attachmentIdOf a,
              (match pmLookup p.1.pending (build_dedupe_key (messageIdOf m) a) with
               | some prev => prev.attempts + 1
               | none => 1), e, now⟩)
    ∧ (∀ (messages : List Message) (files : StreamFiles),
        ((run_download_recent download messages force_redownload now files).2).length
          = messages.length) := by
  refine ⟨fun hmid => ?_, fun a p e hn hid hdl => ?_, fun messages files => ?_⟩
  · unfold process_message_attachments
    rw [if_neg hmid]
    obtain ⟨h1, h2⟩ := foldl_processAttachment_counts download (messageIdOf m)
      force_redownload now m.attachments (st, ⟨messageIdOf m, m.attachments.length, 0, 0, 0⟩)
    exact ⟨h2, by simpa using h1⟩
  · refine ⟨processAttachment_err download (messageIdOf m) force_redownload now a p e hn hid hdl, ?_⟩
    unfold record_pending_failure
    rw [pmLookup_pmSet_self]
  · unfold run_download_recent
    rw [foldl_runStep_length]
    simp

/-- Witness for C6: a two-attachment message whose downloads always fail
still accounts for both attachments; the failing head attachment is
recorded with its error; and the run summary list matches the message
list. -/
theorem failure_isolation_witness :
    (process_message_attachments (fun _ _ => .error "503")
        ⟨some "m1", some "s", none, [⟨some "a1", some "f1", some 1, none, false⟩,
          ⟨some "a2", some "f2", some 2, none, false⟩]⟩ false "t0"
        ⟨∅, [], []⟩).2.attachments_total = 2
    ∧ (process_message_attachments (fun _ _ => .error "503")
        ⟨some "m1", some "s", none, [⟨some "a1", some "f1", some 1, none, false⟩,
          ⟨some "a2", some "f2", some 2, none, false⟩]⟩ false "t0"
        ⟨∅, [], []⟩).2.downloaded_count
      + (process_message_attachments (fun _ _ => .error "503")
        ⟨some "m1", some "s", none, [⟨some "a1", some "f1", some 1, none, false⟩,
          ⟨some "a2", some "f2", some 2, none, false⟩]⟩ false "t0"
        ⟨∅, [], []⟩).2.skipped_count
      + (process_message_attachments (fun _ _ => .error "503")
        ⟨some "m1", some "s", none, [⟨some "a1", some "f1", some 1, none, false⟩,
          ⟨some "a2", some "f2", some 2, none, false⟩]⟩ false "t0"
        ⟨∅, [], []⟩).2.failed_count = 2
    ∧ pmLookup (record_pending_failure []
        (build_dedupe_key (messageIdOf ⟨some "m1", some "s", none,
          [⟨some "a1", some "f1", some 1, none, false⟩,
           ⟨some "a2", some "f2", some 2, none, false⟩]⟩)
          ⟨some "a1", some "f1", some 1, none, false⟩)
        (messageIdOf ⟨some "m1", some "s", none,
          [⟨some "a1", some "f1", some 1, none, false⟩,
           ⟨some "a2", some "f2", some 2, none, false⟩]⟩)
        (attachmentIdOf ⟨some "a1", some "f1", some 1, none, false⟩) "503" "t0")
        (build_dedupe_key (messageIdOf ⟨some "m1", some "s", none,
          [⟨some "a1", some "f1", some 1, none, false⟩,
           ⟨some "a2", some "f2", some 2, none, false⟩]⟩)
          ⟨some "a1", some "f1", some 1, none, false⟩) =
      some ⟨messageIdOf ⟨some "m1", some "s", none,
          [⟨some "a1", some "f1", some 1, none, false⟩,
           ⟨some "a2", some "f2", some 2, none, false⟩]⟩,
        attachmentIdOf ⟨some "a1", some "f1", some 1, none, false⟩,
        (match pmLookup [] (build_dedupe_key (messageIdOf ⟨some "m1", some "s", none,
          [⟨some "a1", some "f1", some 1, none, false⟩,
           ⟨some "a2", some "f2", some 2, none, false⟩]⟩)
          ⟨some "a1", some "f1", some 1, none, false⟩) with
         | some prev => prev.attempts + 1
         | none => 1), "503", "t0"⟩
    ∧ ((run_download_recent (fun _ _ => .error "503")
        [⟨some "m1", some "s", none, [⟨some "a1", some "f1", some 1, none, false⟩]⟩]
        false "t0" ⟨[], []⟩).2).length = 1 := by
  have h := failure_isolation (fun _ _ => .error "503")
    ⟨some "m1", some "s", none, [⟨some "a1", some "f1", some 1, none, false⟩,
      ⟨some "a2", some "f2", some 2, none, false⟩]⟩ false "t0" ⟨∅, [], []⟩
  obtain ⟨h1, h2⟩ := h.1 (by decide)
  refine ⟨h1, h2, ?_, ?_⟩
  · exact (h.2.1 ⟨some "a1", some "f1", some 1, none, false⟩
      (⟨∅, [], []⟩, ⟨"m1", 2, 0, 0, 0⟩) "503" (by decide) (by decide) rfl).2
  · exact h.2.2 [⟨some "m1", some "s", none, [⟨some "a1", some "f1", some 1, none, false⟩]⟩]
      ⟨[], []⟩

/-- Appending one line to the ledger replays as one extra step. -/
theorem load_append (lines : List LedgerLine) (x : LedgerLine) :
    load_completed_keys (lines ++ [x]) = ledgerStep (load_completed_keys lines) x := by
  unfold load_completed_keys
  rw [List.foldl_append]
  rfl

/-- The completed set only ever grows through the per-attachment loop. -/
theorem processAttachment_completed_mono (download : Download) (message_id : String)
    (force_redownload : Bool) (now : String) (p : ProcState × ProcResult) (a : Attachment) :
    p.1.completed ⊆
      (processAttachment download message_id force_redownload now p a).1.completed := by
  unfold processAttachment
  by_cases h1 : (!force_redownload && decide (build_dedupe_key message_id a ∈ p.1.completed)) = true
  · simp [h1]
  · rw [Bool.not_eq_true] at h1
    by_cases h2 : attachmentIdOf a = ""
    · simp [h1, h2]
    · cases hdl : download message_id (attachmentIdOf a) with
      | ok u =>
        cases u
        simp [h1, h2, hdl]
      | error e => simp [h1, h2, hdl]

/-- The completed set only ever grows through the whole attachment list. -/
theorem foldl_processAttachment_completed_mono (download : Download) (message_id : String)
    (force_redownload : Bool) (now : String) :
    ∀ (attachments : List Attachment) (p : ProcState × ProcResult),
      p.1.completed ⊆
        (attachments.foldl (processAttachment download message_id force_redownload now) p).1.completed := by
  intro attachments
  induction attachments with
  | nil => intro p; exact Finset.Subset.refl _
  | cons a rest ih =>
    intro p
    rw [List.foldl_cons]
    exact (processAttachment_completed_mono download message_id force_redownload now p a).trans
      (ih (processAttachment download message_id force_redownload now p a))

/-- One first-run step with a working download: the invariant that the
completed set equals the ledger replay is preserved and the key of the
processed attachment ends up completed. -/
theorem processAttachment_run1 (download : Download) (message_id : String) (now : String)
    (p : ProcState × ProcResult) (a : Attachment)
    (hid : attachmentIdOf a ≠ "")
    (hkc : keyClean (build_dedupe_key message_id a))
    (hdl : ∀ x y, download x y = .ok ()) :
    ((p.1.completed = load_completed_keys p.1.ledger →
      (processAttachment download message_id false now p a).1.completed =
        load_completed_keys (processAttachment download message_id false now p a).1.ledger))
    ∧ build_dedupe_key message_id a ∈
        (processAttachment download message_id false now p a).1.completed := by
  by_cases hmem : build_dedupe_key message_id a ∈ p.1.completed
  · rw [processAttachment_skip download message_id now a p hmem]
    refine ⟨fun hinv => ?_, hmem⟩
    rw [load_append, ledgerStep_event_nondl _ _ _ (by decide)]
    exact hinv
  · rw [processAttachment_ok download message_id false now a p hmem hid (hdl _ _)]
    obtain ⟨hkeq, hkne⟩ := hkc
    refine ⟨fun hinv => ?_, Finset.mem_insert_self _ _⟩
    rw [load_append, ledgerStep_event_dl _ _ (by rw [hkeq]; exact hkne), hkeq, hinv]

/-- Folding a first run over an attachment list with clean ids and a
working download preserves the ledger invariant and completes every
key. -/
theorem foldl_processAttachment_run1 (download : Download) (message_id : String) (now : String)
    (hdl : ∀ x y, download x y = .ok ()) :
    ∀ (attachments : List Attachment) (p : ProcState × ProcResult),
      (∀ a ∈ attachments, attachmentIdOf a ≠ "" ∧ keyClean (build_dedupe_key message_id a)) →
      ((p.1.completed = load_completed_keys p.1.ledger →
        (attachments.foldl (processAttachment download message_id false now) p).1.completed =
          load_completed_keys
            (attachments.foldl (processAttachment download message_id false now) p).1.ledger)
      ∧ (∀ a ∈ attachments, build_dedupe_key message_id a ∈
          (attachments.foldl (processAttachment download message_id false now) p).1.completed)) := by
  intro attachments
  induction attachments with
  | nil => intro p _; exact ⟨fun h => h, by simp⟩
  | cons a rest ih =>
    intro p hclean
    obtain ⟨hid, hkc⟩ := hclean a (List.mem_cons_self _ _)
    obtain ⟨inv1, mem1⟩ := processAttachment_run1 download message_id now p a hid hkc hdl
    obtain ⟨invR, memR⟩ := ih (processAttachment download message_id false now p a)
      (fun b hb => hclean b (List.mem_cons_of_mem _ hb))
    rw [List.foldl_cons]
    refine ⟨fun hinv => invR (inv1 hinv), fun b hb => ?_⟩
    rcases List.mem_cons.mp hb with heq | hb'
    · subst heq
      exact foldl_processAttachment_completed_mono _ _ _ _ _ _ mem1
    · exact memR b hb'

/-- The completed set only ever grows through a whole message. -/
theorem process_message_completed_mono (download : Download) (m : Message)
    (force_redownload : Bool) (now : String) (st : ProcState) :
    st.completed ⊆
      (process_message_attachments download m force_redownload now st).1.completed := by
  unfold process_message_attachments
  by_cases hmid : messageIdOf m = ""
  · rw [if_pos hmid]
  · rw [if_neg hmid]
    exact foldl_processAttachment_completed_mono download (messageIdOf m) force_redownload now
      m.attachments (st, _)

/-- A first run over one clean message with a working download preserves
the ledger invariant and completes every key of the message. -/
theorem process_message_run1 (download : Download) (m : Message) (now : String) (st : ProcState)
    (hdl : ∀ x y, download x y = .ok ())
    (hmid : messageIdOf m ≠ "")
    (hclean : ∀ a ∈ m.attachments,
      attachmentIdOf a ≠ "" ∧ keyClean (build_dedupe_key (messageIdOf m) a)) :
    ((st.completed = load_completed_keys st.ledger →
      (process_message_attachments download m false now st).1.completed =
        load_completed_keys (process_message_attachments download m false now st).1.ledger)
    ∧ (∀ a ∈ m.attachments, build_dedupe_key (messageIdOf m) a ∈
        (process_message_attachments download m false now st).1.completed)) := by
  unfold process_message_attachments
  rw [if_neg hmid]
  exact foldl_processAttachment_run1 download (messageIdOf m) now hdl m.attachments (st, _) hclean

/-- The completed set only ever grows through the message loop of a run. -/
theorem foldl_runStep_completed_mono (download : Download) (force_redownload : Bool)
    (now : String) :
    ∀ (messages : List Message) (q : ProcState × List ProcResult),
      q.1.completed ⊆
        ((messages.foldl (runStep download force_redownload now) q).1).completed := by
  intro messages
  induction messages with
  | nil => intro q; exact Finset.Subset.refl _
  | cons m rest ih =>
    intro q
    rw [List.foldl_cons]
    exact (process_message_completed_mono download m force_redownload now q.1).trans
      (ih (runStep download force_redownload now q m))

/-- A first run over a clean message list with a working download
preserves the ledger invariant across the whole message loop and
completes every key of every listed message. -/
theorem foldl_runStep_run1 (download : Download) (now : String)
    (hdl : ∀ x y, download x y = .ok ()) :
    ∀ (messages : List Message) (q : ProcState × List ProcResult),
      (∀ m ∈ messages, messageIdOf m ≠ "" ∧ ∀ a ∈ m.attachments,
        attachmentIdOf a ≠ "" ∧ keyClean (build_dedupe_key (messageIdOf m) a)) →
      ((q.1.completed = load_completed_keys q.1.ledger →
        ((messages.foldl (runStep download false now) q).1).completed =
          load_completed_keys ((messages.foldl (runStep download false now) q).1).ledger)
      ∧ (∀ m ∈ messages, ∀ a ∈ m.attachments, build_dedupe_key (messageIdOf m) a ∈
          ((messages.foldl (runStep download false now) q).1).completed)) := by
  intro messages
  induction messages with
  | nil => intro q _; exact ⟨fun h => h, by simp⟩
  | cons m rest ih =>
    intro q hclean
    obtain ⟨hmid, hatts⟩ := hclean m (List.mem_cons_self _ _)
    obtain ⟨inv1, mem1⟩ := process_message_run1 download m now q.1 hdl hmid hatts
    obtain ⟨invR, memR⟩ := ih (runStep download false now q m)
      (fun b hb => hclean b (List.mem_cons_of_mem _ hb))
    rw [List.foldl_cons]
    refine ⟨fun hinv => invR (inv1 hinv), fun b hb a ha => ?_⟩
    rcases List.mem_cons.mp hb with heq | hb'
    · subst heq
      exact foldl_runStep_completed_mono _ _ _ _ _ (mem1 _ ha)
    · exact memR b hb' a ha

/-- When every key of the list is already completed, the per-attachment
loop only skips: the completed set and the replayed downloaded-set are
unchanged, nothing is downloaded and every attachment is counted
skipped. -/
theorem foldl_processAttachment_all_completed (download : Download) (message_id : String)
    (now : String) :
    ∀ (attachments : List Attachment) (p : ProcState × ProcResult),
      (∀ a ∈ attachments, build_dedupe_key message_id a ∈ p.1.completed) →
      ((attachments.foldl (processAttachment download message_id false now) p).1.completed
          = p.1.completed
        ∧ load_completed_keys
            (attachments.foldl (processAttachment download message_id false now) p).1.ledger
          = load_completed_keys p.1.ledger
        ∧ (attachments.foldl (processAttachment download message_id false now) p).2.downloaded_count
          = p.2.downloaded_count
        ∧ (attachments.foldl (processAttachment download message_id false now) p).2.skipped_count
          = p.2.skipped_count + attachments.length
        ∧ (attachments.foldl (processAttachment download message_id false now) p).2.attachments_total
          = p.2.attachments_total) := by
  intro attachments
  induction attachments with
  | nil => intro p _; exact ⟨rfl, rfl, rfl, by simp, rfl⟩
  | cons a rest ih =>
    intro p hkeys
    have hmem := hkeys a (List.mem_cons_self _ _)
    rw [List.foldl_cons, processAttachment_skip download message_id now a p hmem]
    obtain ⟨g1, g2, g3, g4, g5⟩ := ih
      ({ p.1 with
          pending := clear_pending_failure p.1.pending (build_dedupe_key message_id a),
          ledger := p.1.ledger ++
            [.event "skipped_already_downloaded" (some (build_dedupe_key message_id a))] },
       { p.2 with skipped_count := p.2.skipped_count + 1 })
      (fun b hb => hkeys b (List.mem_cons_of_mem _ hb))
    refine ⟨g1, ?_, g3, ?_, g5⟩
    · rw [g2]
      show load_completed_keys (p.1.ledger ++
        [.event "skipped_already_downloaded" (some (build_dedupe_key message_id a))]) = _
      rw [load_append, ledgerStep_event_nondl _ _ _ (by decide)]
    · rw [g4]
      show p.2.skipped_count + 1 + rest.length = p.2.skipped_count + (a :: rest).length
      simp [List.length_cons]
      omega

/-- A message whose keys are all completed is fully skipped: nothing is
downloaded, the skipped counter equals the attachment count, and the
completed set and replayed downloaded-set do not change. -/
theorem process_message_all_completed (download : Download) (m : Message) (now : String)
    (st : ProcState)
    (hmid : messageIdOf m ≠ "")
    (hkeys : ∀ a ∈ m.attachments, build_dedupe_key (messageIdOf m) a ∈ st.completed) :
    ((process_message_attachments download m false now st).1.completed = st.completed
    ∧ load_completed_keys (process_message_attachments download m false now st).1.ledger
      = load_completed_keys st.ledger
    ∧ (process_message_attachments download m false now st).2.downloaded_count = 0
    ∧ (process_message_attachments download m false now st).2.skipped_count
      = (process_message_attachments download m false now st).2.attachments_total) := by
  unfold process_message_attachments
  rw [if_neg hmid]
  obtain ⟨g1, g2, g3, g4, g5⟩ := foldl_processAttachment_all_completed download (messageIdOf m)
    now m.attachments (st, ⟨messageIdOf m, m.attachments.length, 0, 0, 0⟩) hkeys
  refine ⟨g1, g2, by rw [g3], by rw [g4, g5]; simp⟩

/-- The message loop over messages whose keys are all completed changes
neither the completed set nor the replayed downloaded-set, and every
newly produced summary reports zero downloads with every attachment
skipped. -/
theorem foldl_runStep_all_completed (download : Download) (now : String) :
    ∀ (messages : List Message) (q : ProcState × List ProcResult),
      (∀ m ∈ messages, messageIdOf m ≠ "") →
      (∀ m ∈ messages, ∀ a ∈ m.attachments,
        build_dedupe_key (messageIdOf m) a ∈ q.1.completed) →
      (((messages.foldl (runStep download false now) q).1).completed = q.1.completed
       ∧ load_completed_keys ((messages.foldl (runStep download false now) q).1).ledger
         = load_completed_keys q.1.ledger
       ∧ ∀ r ∈ (messages.foldl (runStep download false now) q).2,
           r ∈ q.2 ∨ (r.downloaded_count = 0 ∧ r.skipped_count = r.attachments_total)) := by
  intro messages
  induction messages with
  | nil => intro q _ _; exact ⟨rfl, rfl, fun r hr => Or.inl hr⟩
  | cons m rest ih =>
    intro q hmid hkeys
    obtain ⟨g1, g2, g3, g4⟩ := process_message_all_completed download m now q.1
      (hmid m (List.mem_cons_self _ _)) (hkeys m (List.mem_cons_self _ _))
    have hstep1 : (runStep download false now q m).1.completed = q.1.completed := g1
    have hstep2 : load_completed_keys (runStep download false now q m).1.ledger
        = load_completed_keys q.1.ledger := g2
    rw [List.foldl_cons]
    obtain ⟨f1, f2, f3⟩ := ih (runStep download false now q m)
      (fun b hb => hmid b (List.mem_cons_of_mem _ hb))
      (fun b hb a ha => by
        rw [hstep1]
        exact hkeys b (List.mem_cons_of_mem _ hb) a ha)
    refine ⟨f1.trans hstep1, f2.trans hstep2, fun r hr => ?_⟩
    rcases f3 r hr with hin | hgood
    · have hin2 : r ∈ q.2 ++ [(process_message_attachments download m false now q.1).2] := hin
      rcases List.mem_append.mp hin2 with h | h
      · exact Or.inl h
      · rw [List.mem_singleton.mp h]
        exact Or.inr ⟨g3, g4⟩
    · exact Or.inr hgood

/-- A bounded run without force-redownload over messages whose keys are
already in the replayed ledger downloads nothing, skips every attachment
of every message, and leaves the downloaded-set unchanged. -/
theorem run_download_recent_all_completed (download : Download) (messages : List Message)
    (now : String) (files : StreamFiles)
    (hmid : ∀ m ∈ messages, messageIdOf m ≠ "")
    (hkeys : ∀ m ∈ messages, ∀ a ∈ m.attachments,
      build_dedupe_key (messageIdOf m) a ∈ load_completed_keys files.ledger) :
    ((∀ r ∈ (run_download_recent download messages false now files).2,
        r.downloaded_count = 0 ∧ r.skipped_count = r.attachments_total)
    ∧ load_completed_keys (run_download_recent download messages false now files).1.ledger
      = load_completed_keys files.ledger) := by
  simp only [run_download_recent]
  obtain ⟨g1, g2, g3⟩ := foldl_runStep_all_completed download now messages
    ⟨⟨load_completed_keys files.ledger, files.pending,
       files.ledger ++ [.event "run_started" none]⟩, []⟩ hmid
    (fun m hm a ha => hkeys m hm a ha)
  refine ⟨fun r hr => ?_, ?_⟩
  · rcases g3 r hr with h | h
    · simp at h
    · exact h
  · rw [load_append, ledgerStep_event_nondl _ _ _ (by decide), g2]
    show load_completed_keys (files.ledger ++ [.event "run_started" none]) = _
    rw [load_append, ledgerStep_event_nondl _ _ _ (by decide)]

/-- After a first bounded run with a working download over clean messages,
every dedupe key of the scanned messages is in the replayed
downloaded-set of the resulting ledger. -/
theorem run_download_recent_run1_keys (download : Download) (messages : List Message)
    (now : String) (files : StreamFiles)
    (hdl : ∀ x y, download x y = .ok ())
    (hclean : ∀ m ∈ messages, messageIdOf m ≠ "" ∧ ∀ a ∈ m.attachments,
      attachmentIdOf a ≠ "" ∧ keyClean (build_dedupe_key (messageIdOf m) a)) :
    ∀ m ∈ messages, ∀ a ∈ m.attachments,
      build_dedupe_key (messageIdOf m) a ∈
        load_completed_keys (run_download_recent download messages false now files).1.ledger := by
  intro m hm a ha
  simp only [run_download_recent]
  obtain ⟨ginv, gkeys⟩ := foldl_runStep_run1 download now hdl messages
    ⟨⟨load_completed_keys files.ledger, files.pending,
       files.ledger ++ [.event "run_started" none]⟩, []⟩ hclean
  have hstart : (⟨⟨load_completed_keys files.ledger, files.pending,
      files.ledger ++ [.event "run_started" none]⟩, ([] : List ProcResult)⟩ :
        ProcState × List ProcResult).1.completed =
      load_completed_keys (⟨⟨load_completed_keys files.ledger, files.pending,
      files.ledger ++ [.event "run_started" none]⟩, ([] : List ProcResult)⟩ :
        ProcState × List ProcResult).1.ledger := by
    show load_completed_keys files.ledger =
      load_completed_keys (files.ledger ++ [.event "run_started" none])
    rw [load_append, ledgerStep_event_nondl _ _ _ (by decide)]
  rw [load_append, ledgerStep_event_nondl _ _ _ (by decide), ← ginv hstart]
  exact gkeys m hm a ha

/-- C5: idempotent dedup: running the bounded download-recent mode twice
in a row without force-redownload over an unchanged healthy mailbox (all
ids present, downloads succeed, keys survive the ledger round trip) gives
a second run that downloads nothing, reports every attachment of every
message as skipped, and leaves the replayed set of downloaded dedupe keys
of the ledger unchanged. -/
theorem idempotent_dedup (download : Download) (messages : List Message)
    (now1 now2 : String) (files0 : StreamFiles)
    (hdl : ∀ x y, download x y = .ok ())
    (hclean : ∀ m ∈ messages, messageIdOf m ≠ "" ∧ ∀ a ∈ m.attachments,
      attachmentIdOf a ≠ "" ∧ keyClean (build_dedupe_key (messageIdOf m) a)) :
    (∀ r ∈ (run_download_recent download messages false now2
        (run_download_recent download messages false now1 files0).1).2,
      r.downloaded_count = 0 ∧ r.skipped_count = r.attachments_total)
    ∧ load_completed_keys (run_download_recent download messages false now2
        (run_download_recent download messages false now1 files0).1).1.ledger =
      load_completed_keys (run_download_recent download messages false now1 files0).1.ledger :=
  run_download_recent_all_completed download messages now2
    (run_download_recent download messages false now1 files0).1
    (fun m hm => (hclean m hm).1)
    (run_download_recent_run1_keys download messages now1 files0 hdl hclean)

/-- Witness for C5: one clean one-attachment message with a working
download; the second run leaves the replayed downloaded-set unchanged. -/
theorem idempotent_dedup_witness :
    load_completed_keys (run_download_recent (fun _ _ => Except.ok ())
        [⟨some "m1", some "s", some "2026-01-01T00:00:00Z",
          [⟨some "a1", some "f.txt", some 10, none, false⟩]⟩] false "t2"
        (run_download_recent (fun _ _ => Except.ok ())
          [⟨some "m1", some "s", some "2026-01-01T00:00:00Z",
            [⟨some "a1", some "f.txt", some 10, none, false⟩]⟩] false "t1"
          ⟨[], []⟩).1).1.ledger =
      load_completed_keys (run_download_recent (fun _ _ => Except.ok ())
        [⟨some "m1", some "s", some "2026-01-01T00:00:00Z",
          [⟨some "a1", some "f.txt", some 10, none, false⟩]⟩] false "t1" ⟨[], []⟩).1.ledger :=
  (idempotent_dedup (fun _ _ => Except.ok ())
    [⟨some "m1", some "s", some "2026-01-01T00:00:00Z",
      [⟨some "a1", some "f.txt", some 10, none, false⟩]⟩] "t1" "t2" ⟨[], []⟩
    (fun _ _ => rfl) (by decide)).2

end OutlookSync
